import Mathlib

/-!
Verification of the schema-mapping / schema-diff core of the Multi_Agent_ETL
repository.  The Python sources embedded here are
`src/etl_platform/agents/schema_mapping_agent.py` and
`src/etl_platform/agents/data_discovery_agent.py`.  Python floats are
modelled as rationals, Python dicts as insertion-ordered association lists,
and `difflib.SequenceMatcher` (invoked on short normalized field names, so
the autojunk heuristic never fires) as the plain longest-matching-blocks
algorithm it implements.
-/

namespace Etl

/-- `Field` from `shared/models.py` (the unused `description` is omitted). -/
structure Field where
  name : String
  data_type : String
  nullable : Bool
deriving DecidableEq

/-- `Schema` from `shared/models.py` (timestamp/table_name are never read by
the mapping or diffing code and are omitted). -/
structure Schema where
  id : String
  source_id : String
  version : Nat
  fields : List Field
deriving DecidableEq

/-- `MappingType` from `shared/models.py`. -/
inductive MappingType where
  | direct
  | transformed
  | derived
deriving DecidableEq

/-- `FieldMapping` from `shared/models.py`; `confidence` is a rational. -/
structure FieldMapping where
  source_field : String
  target_field : String
  transformation : Option String
  confidence : ℚ
  mapping_type : MappingType
deriving DecidableEq

/-- `SchemaChange` from `shared/models.py` (the `detected_at` timestamp is
omitted; `change_type` is the literal Python string). -/
structure SchemaChange where
  source_id : String
  change_type : String
  field_name : String
  old_value : Option String
  new_value : Option String
deriving DecidableEq

/-- Association-list lookup: the model of Python `dict` access. -/
def alist_get {β : Type} (k : String) : List (String × β) → Option β
  | [] => none
  | p :: t => if p.1 = k then some p.2 else alist_get k t

/-- Association-list write `d[k] = v`: replaces in place if the key exists
(Python dicts keep the original position), otherwise appends. -/
def alist_put {β : Type} (k : String) (v : β) : List (String × β) → List (String × β)
  | [] => [(k, v)]
  | p :: t => if p.1 = k then (k, v) :: t else p :: alist_put k v t

/-- Association-list delete `del d[k]` (removes the first entry with key `k`;
keys are unique in every dict this model builds). -/
def alist_del {β : Type} (k : String) : List (String × β) → List (String × β)
  | [] => []
  | p :: t => if p.1 = k then t else p :: alist_del k t

/-- Scan to just past the first `)` of a character list, if any: the shape of
one match of the regex `\([^)]*\)` used by `_normalize_type`. -/
def pastRparen : List Char → Option (List Char)
  | [] => none
  | c :: t => if c = ')' then some t else pastRparen t

/-- Fuel-driven worker for the regex substitution `re.sub(r'\([^)]*\)', '', s)`:
every `(`...`)` group (no `)` inside) is dropped; a `(` with no later `)`
matches nothing and is kept verbatim.  `fuel ≥ length` always suffices. -/
def stripParensF : Nat → List Char → List Char
  | 0, l => l
  | _ + 1, [] => []
  | f + 1, c :: t =>
    if c = '(' then
      match pastRparen t with
      | some rest => stripParensF f rest
      | none => c :: t
    else c :: stripParensF f t

/-- The regex substitution removing parenthesized size specifications. -/
def stripParens (l : List Char) : List Char :=
  stripParensF l.length l

/-- Python `str.strip()`: trim whitespace from both ends. -/
def pyStrip (l : List Char) : List Char :=
  ((l.dropWhile Char.isWhitespace).reverse.dropWhile Char.isWhitespace).reverse

/-- `SchemaMappingAgent._normalize_type`: uppercase, drop parenthesized size
specifications, trim whitespace. -/
def normalize_type (data_type : String) : String :=
  String.mk (pyStrip (stripParens (data_type.toList.map Char.toUpper)))

/-- `SchemaMappingAgent.TYPE_COMPATIBILITY`, verbatim. -/
def TYPE_COMPATIBILITY : List (String × List String) :=
  [("VARCHAR", ["TEXT", "CHAR", "STRING", "VARCHAR"]),
   ("TEXT", ["VARCHAR", "CHAR", "STRING", "TEXT"]),
   ("CHAR", ["VARCHAR", "TEXT", "STRING", "CHAR"]),
   ("STRING", ["VARCHAR", "TEXT", "CHAR", "STRING"]),
   ("INTEGER", ["BIGINT", "SMALLINT", "INT", "INTEGER", "NUMERIC", "DECIMAL"]),
   ("BIGINT", ["INTEGER", "SMALLINT", "INT", "BIGINT", "NUMERIC", "DECIMAL"]),
   ("SMALLINT", ["INTEGER", "BIGINT", "INT", "SMALLINT", "NUMERIC", "DECIMAL"]),
   ("INT", ["INTEGER", "BIGINT", "SMALLINT", "INT", "NUMERIC", "DECIMAL"]),
   ("NUMERIC", ["INTEGER", "BIGINT", "DECIMAL", "FLOAT", "DOUBLE", "NUMERIC"]),
   ("DECIMAL", ["INTEGER", "BIGINT", "NUMERIC", "FLOAT", "DOUBLE", "DECIMAL"]),
   ("FLOAT", ["DOUBLE", "NUMERIC", "DECIMAL", "FLOAT"]),
   ("DOUBLE", ["FLOAT", "NUMERIC", "DECIMAL", "DOUBLE"]),
   ("DATE", ["TIMESTAMP", "DATETIME", "DATE"]),
   ("TIMESTAMP", ["DATETIME", "DATE", "TIMESTAMP"]),
   ("DATETIME", ["TIMESTAMP", "DATE", "DATETIME"]),
   ("TIME", ["TIME"]),
   ("BOOLEAN", ["BOOL", "BIT", "BOOLEAN"]),
   ("BOOL", ["BOOLEAN", "BIT", "BOOL"]),
   ("BLOB", ["BINARY", "VARBINARY", "BLOB"]),
   ("BINARY", ["BLOB", "VARBINARY", "BINARY"])]

/-- `SchemaMappingAgent._check_type_compatibility`. -/
def check_type_compatibility (source_type target_type : String) : Bool :=
  let s := normalize_type source_type
  let t := normalize_type target_type
  if s = t then true
  else
    match alist_get s TYPE_COMPATIBILITY with
    | some l => t ∈ l
    | none => false

/-- `SchemaMappingAgent._are_types_identical`. -/
def are_types_identical (source_type target_type : String) : Bool :=
  normalize_type source_type = normalize_type target_type

/-- `SchemaMappingAgent._generate_type_conversion` (its `source_norm` local is
computed but never used by the Python code, so it is not modelled). -/
def generate_type_conversion (_source_type target_type : String) : String :=
  let tn := normalize_type target_type
  if tn ∈ ["VARCHAR", "TEXT", "CHAR", "STRING"] then "CAST({field} AS VARCHAR)"
  else if tn ∈ ["INTEGER", "INT", "BIGINT", "SMALLINT"] then "CAST({field} AS INTEGER)"
  else if tn ∈ ["NUMERIC", "DECIMAL"] then "CAST({field} AS NUMERIC)"
  else if tn ∈ ["FLOAT", "DOUBLE"] then "CAST({field} AS FLOAT)"
  else if tn ∈ ["DATE", "TIMESTAMP", "DATETIME"] then "CAST({field} AS TIMESTAMP)"
  else if tn ∈ ["BOOLEAN", "BOOL"] then "CAST({field} AS BOOLEAN)"
  else "CAST({field} AS " ++ tn ++ ")"

/-- Length of the longest common prefix of two character lists. -/
def cpl : List Char → List Char → Nat
  | a :: as, b :: bs => if a = b then cpl as bs + 1 else 0
  | _, _ => 0

/-- `difflib.SequenceMatcher.find_longest_match` over whole sequences, junk
heuristics inactive: the longest common contiguous run, reported as
`(i, j, size)` with the lexicographically first `(i, j)` among maximal runs
(the matcher scans `i` then `j` ascending and only replaces its best on a
strictly longer run). -/
def find_longest_match (a b : List Char) : Nat × Nat × Nat :=
  (List.range a.length).foldl
    (fun acc i =>
      (List.range b.length).foldl
        (fun acc2 j =>
          let k := cpl (a.drop i) (b.drop j)
          if acc2.2.2 < k then (i, j, k) else acc2)
        acc)
    (0, 0, 0)

/-- Total length of all matching blocks found by `SequenceMatcher`'s
recursive decomposition (fuel-driven; `fuel ≥ a.length` always suffices
because each recursive call strictly shrinks the first sequence). -/
def match_total : Nat → List Char → List Char → Nat
  | 0, _, _ => 0
  | fuel + 1, a, b =>
    let r := find_longest_match a b
    if r.2.2 = 0 then 0
    else
      r.2.2 + match_total fuel (a.take r.1) (b.take r.2.1) +
        match_total fuel (a.drop (r.1 + r.2.2)) (b.drop (r.2.1 + r.2.2))

/-- `difflib.SequenceMatcher(None, a, b).ratio()`:
`2·M / (len a + len b)`, and `1.0` when both sequences are empty. -/
def matcher_score (a b : List Char) : ℚ :=
  if a.length + b.length = 0 then 1
  else (2 * (match_total a.length a b : ℚ)) / ((a.length : ℚ) + (b.length : ℚ))

/-- Does `xs` start with `pat`? -/
def leadsWith : List Char → List Char → Bool
  | _, [] => true
  | [], _ :: _ => false
  | x :: xs, p :: ps => x = p && leadsWith xs ps

/-- Python substring test `pat in xs` (true for the empty pattern). -/
def hasSub : List Char → List Char → Bool
  | xs, pat =>
    leadsWith xs pat ||
      match xs with
      | [] => false
      | _ :: t => hasSub t pat

/-- Name normalization used by `_calculate_name_similarity`: lowercase, then
drop `_` and `-`. -/
def norm_name (name : String) : List Char :=
  (name.toList.map Char.toLower).filter (fun c => !(c = '_' || c = '-'))

/-- The `common_abbreviations` dictionary of `_calculate_name_similarity`. -/
def common_abbreviations : List (List Char × List Char) :=
  [("id".toList, "identifier".toList),
   ("num".toList, "number".toList),
   ("qty".toList, "quantity".toList),
   ("amt".toList, "amount".toList),
   ("desc".toList, "description".toList),
   ("addr".toList, "address".toList),
   ("tel".toList, "telephone".toList),
   ("email".toList, "emailaddress".toList)]

/-- `SchemaMappingAgent._calculate_name_similarity`. -/
def calculate_name_similarity (name1 name2 : String) : ℚ :=
  let norm1 := norm_name name1
  let norm2 := norm_name name2
  if norm1 = norm2 then 1
  else
    let s0 := matcher_score norm1 norm2
    let s1 := if hasSub norm2 norm1 || hasSub norm1 norm2 then max s0 (4 / 5) else s0
    common_abbreviations.foldl
      (fun s p =>
        if (norm1 = p.1 ∧ norm2 = p.2) ∨ (norm1 = p.2 ∧ norm2 = p.1) then max s (9 / 10)
        else s)
      s1

/-- `SchemaMappingAgent._calculate_confidence` (floats as rationals). -/
def calculate_confidence (name_similarity : ℚ) (type_compatible : Bool)
    (source_field target_field : Field) : ℚ :=
  let c0 := name_similarity
  let c1 := if type_compatible then c0 else c0 * (3 / 10)
  let c2 :=
    if are_types_identical source_field.data_type target_field.data_type then
      min 1 (c1 * (6 / 5))
    else c1
  let c3 := if source_field.nullable = target_field.nullable then min 1 (c2 * (21 / 20)) else c2
  let c4 := if !source_field.nullable && target_field.nullable then c3 * (19 / 20) else c3
  let c5 := if source_field.nullable && !target_field.nullable then c4 * (17 / 20) else c4
  min 1 (max 0 c5)

/-- Confidence of the candidate pair `(sf, tf)` exactly as both
`generate_mappings` and `update_mappings` compute it. -/
def candidate_confidence (sf tf : Field) : ℚ :=
  calculate_confidence (calculate_name_similarity sf.name tf.name)
    (check_type_compatibility sf.data_type tf.data_type) sf tf

/-- The `FieldMapping` built by `generate_mappings` (and by the `added` /
`type_changed` branches of `update_mappings`, which use identical code). -/
def make_generated_mapping (sf tf : Field) (conf : ℚ) : FieldMapping :=
  if are_types_identical sf.data_type tf.data_type then
    ⟨sf.name, tf.name, none, conf, MappingType.direct⟩
  else
    ⟨sf.name, tf.name, some (generate_type_conversion sf.data_type tf.data_type), conf,
      MappingType.transformed⟩

/-- Inner loop of `generate_mappings` for one target field: fold over the
source fields tracking `(best_mapping, best_confidence)`, skipping claimed
source names, replacing the best only on a strictly larger confidence. -/
def gen_best (tf : Field) (claimed : List String) (sfields : List Field) :
    Option FieldMapping × ℚ :=
  sfields.foldl
    (fun acc sf =>
      if sf.name ∈ claimed then acc
      else
        let conf := candidate_confidence sf tf
        if acc.2 < conf then (some (make_generated_mapping sf tf conf), conf) else acc)
    (none, 0)

/-- One iteration of the target-field loop of `generate_mappings`. -/
def gen_step (sfields : List Field) (acc : List FieldMapping × List String) (tf : Field) :
    List FieldMapping × List String :=
  let r := gen_best tf acc.2 sfields
  match r.1 with
  | some m => if (3 / 10 : ℚ) < r.2 then (acc.1 ++ [m], acc.2 ++ [m.source_field]) else acc
  | none => acc

/-- `SchemaMappingAgent.generate_mappings` (the produced list; the cache
write and event publication carry no further logic). -/
def generate_mappings (source target : Schema) : List FieldMapping :=
  (target.fields.foldl (gen_step source.fields) ([], [])).1

/-- Spec-side reading of §4.4: among the candidates keep the
strictly-best-scoring one, ties keeping the first encountered. -/
def pick_best_candidate (tf : Field) (cands : List Field) : Option (Field × ℚ) :=
  cands.foldl
    (fun best sf =>
      let conf := candidate_confidence sf tf
      match best with
      | none => if 0 < conf then some (sf, conf) else none
      | some p => if p.2 < conf then some (sf, conf) else best)
    none

/-- Spec-side reading of §4.4 for one target field: restrict to source
fields not yet claimed, pick the strictly-best candidate, accept it only
above the 0.3 threshold, and on acceptance claim its source field. -/
def gen_step_spec (sfields : List Field) (acc : List FieldMapping × List String) (tf : Field) :
    List FieldMapping × List String :=
  let cands := sfields.filter (fun sf => !(decide (sf.name ∈ acc.2)))
  match pick_best_candidate tf cands with
  | some p =>
    if (3 / 10 : ℚ) < p.2 then (acc.1 ++ [make_generated_mapping p.1 tf p.2], acc.2 ++ [p.1.name])
    else acc
  | none => acc

/-- §4.4 as the spec words it: iterate target fields in declared order over
the not-yet-claimed source fields, keeping strictly-best candidates. -/
def generate_mappings_spec (source target : Schema) : List FieldMapping :=
  (target.fields.foldl (gen_step_spec source.fields) ([], [])).1

/-- `next((f for f in fields if f.name == n), None)`. -/
def first_field_named (n : String) (fields : List Field) : Option Field :=
  fields.find? (fun f => f.name = n)

/-- The target-scanning loop of the `added` branch of `update_mappings`:
walk the target fields in declared order, skip names already used as a
`target_field` in the (pre-batch) mapping list, and stop at the first
remaining target whose confidence exceeds 0.5. -/
def find_added_mapping (nf : Field) (used_targets : List String) :
    List Field → Option FieldMapping
  | [] => none
  | tf :: rest =>
    if tf.name ∈ used_targets then find_added_mapping nf used_targets rest
    else
      let conf := candidate_confidence nf tf
      if (1 / 2 : ℚ) < conf then some (make_generated_mapping nf tf conf)
      else find_added_mapping nf used_targets rest

/-- Processing of a single `SchemaChange` by `update_mappings`, acting on
the `mapping_dict` association list; `used_targets` is the list of target
fields of the cached mappings, computed once before the batch. -/
def update_step (source target : Schema) (used_targets : List String)
    (d : List (String × FieldMapping)) (ch : SchemaChange) : List (String × FieldMapping) :=
  if ch.change_type = "added" then
    match first_field_named ch.field_name source.fields with
    | none => d
    | some nf =>
      match find_added_mapping nf used_targets target.fields with
      | none => d
      | some m => alist_put nf.name m d
  else if ch.change_type = "removed" then
    alist_del ch.field_name d
  else if ch.change_type = "type_changed" then
    match alist_get ch.field_name d with
    | none => d
    | some old =>
      match first_field_named ch.field_name source.fields,
          first_field_named old.target_field target.fields with
      | some uf, some tf =>
        alist_put ch.field_name (make_generated_mapping uf tf (candidate_confidence uf tf)) d
      | _, _ => d
  else d

/-- `{m.source_field: m for m in mappings}`. -/
def dict_of_mappings (ms : List FieldMapping) : List (String × FieldMapping) :=
  ms.foldl (fun d m => alist_put m.source_field m d) []

/-- `SchemaMappingAgent.update_mappings`: takes and returns the mapping
cache (keyed `source.id ++ "_" ++ target.id`) alongside the updated list. -/
def update_mappings (cache : List (String × List FieldMapping))
    (schema_changes : List SchemaChange) (source target : Schema) :
    List FieldMapping × List (String × List FieldMapping) :=
  let key := source.id ++ "_" ++ target.id
  let existing := (alist_get key cache).getD []
  let used := existing.map (fun m => m.target_field)
  let d := schema_changes.foldl (update_step source target used) (dict_of_mappings existing)
  let updated := d.map Prod.snd
  (updated, alist_put key updated cache)

/-- Keys of `{f.name: f for f in fields}` in insertion (first-occurrence)
order. -/
def dict_keys : List Field → List String
  | [] => []
  | f :: t => f.name :: (dict_keys t).filter (fun n => n ≠ f.name)

/-- Value of `{f.name: f for f in fields}[n]`: the last field named `n`. -/
def field_get (fields : List Field) (n : String) : Option Field :=
  fields.reverse.find? (fun f => f.name = n)

/-- The Python strings `f"nullable={bool}"`. -/
def nullable_str (b : Bool) : String :=
  if b then "nullable=True" else "nullable=False"

/-- The change list computed by `DataDiscoveryAgent.detect_schema_changes`
once a cached snapshot exists: added fields, then removed fields, then for
each common field a `type_changed` change when the raw `data_type` strings
differ and a `modified` change when nullability differs. -/
def detect_changes_list (source_id : String) (oldSchema newSchema : Schema) :
    List SchemaChange :=
  let added :=
    (dict_keys newSchema.fields).filterMap (fun n =>
      match field_get newSchema.fields n with
      | none => none
      | some nf =>
        if (field_get oldSchema.fields n).isNone then
          some ⟨source_id, "added", n, none, some nf.data_type⟩
        else none)
  let removed :=
    (dict_keys oldSchema.fields).filterMap (fun n =>
      match field_get oldSchema.fields n with
      | none => none
      | some of =>
        if (field_get newSchema.fields n).isNone then
          some ⟨source_id, "removed", n, some of.data_type, none⟩
        else none)
  let common :=
    (dict_keys oldSchema.fields).flatMap (fun n =>
      match field_get oldSchema.fields n, field_get newSchema.fields n with
      | some of, some nf =>
        (if of.data_type ≠ nf.data_type then
            [⟨source_id, "type_changed", n, some of.data_type, some nf.data_type⟩]
          else []) ++
          (if of.nullable ≠ nf.nullable then
            [⟨source_id, "modified", n, some (nullable_str of.nullable),
               some (nullable_str nf.nullable)⟩]
          else [])
      | _, _ => [])
  added ++ removed ++ common

/-- `DataDiscoveryAgent.detect_schema_changes`: returns the change list and
the updated snapshot cache (cold start caches and reports nothing; the
snapshot is replaced only when the change list is non-empty). -/
def detect_schema_changes (cache : List (String × Schema)) (source_id : String)
    (new_schema : Schema) : List SchemaChange × List (String × Schema) :=
  match alist_get source_id cache with
  | none => ([], alist_put source_id new_schema cache)
  | some old =>
    let changes := detect_changes_list source_id old new_schema
    if changes = [] then (changes, cache)
    else (changes, alist_put source_id new_schema cache)

/-- Bridge between the spec-side best candidate `(field, confidence)` and the
`(best_mapping, best_confidence)` pair tracked by the code's inner loop. -/
def encode_best (tf : Field) : Option (Field × ℚ) → Option FieldMapping × ℚ
  | none => (none, 0)
  | some p => (some (make_generated_mapping p.1 tf p.2), p.2)

/-- The string family of §4.1 as the claim lists it. -/
def string_family : List String := ["VARCHAR", "TEXT", "CHAR", "STRING"]

/-- The integer/numeric family of §4.1 as the claim lists it. -/
def integer_family : List String :=
  ["INTEGER", "BIGINT", "SMALLINT", "INT", "NUMERIC", "DECIMAL"]

/-- The float/numeric family of §4.1 as the claim lists it. -/
def float_family : List String := ["FLOAT", "DOUBLE", "NUMERIC", "DECIMAL"]

/-- The temporal family of §4.1 as the claim lists it. -/
def temporal_family : List String := ["DATE", "TIMESTAMP", "DATETIME"]

/-- The boolean family of §4.1 as the claim lists it. -/
def boolean_family : List String := ["BOOLEAN", "BOOL", "BIT"]

/-- The binary family of §4.1 as the claim lists it. -/
def binary_family : List String := ["BLOB", "BINARY", "VARBINARY"]

/-- All six families named by the claim. -/
def claim_families : List (List String) :=
  [string_family, integer_family, float_family, temporal_family, boolean_family,
    binary_family]

/-- Every type name occurring in the claim's families. -/
def all_family_types : List String := claim_families.flatMap id

/-- The within-family ordered pairs on which the compatibility matrix
actually fails: `NUMERIC`/`DECIMAL` do not list `SMALLINT`/`INT` back, and
`BIT`/`VARBINARY` are not keys of the matrix at all. -/
def family_exception (a b : String) : Prop :=
  ((a = "NUMERIC" ∨ a = "DECIMAL") ∧ (b = "SMALLINT" ∨ b = "INT")) ∨
    ((a = "BIT" ∨ a = "VARBINARY") ∧ a ≠ b)

instance (a b : String) : Decidable (family_exception a b) := by
  unfold family_exception
  infer_instance

/-- §4.3 as the spec words it, step 2: heavy penalty for incompatible types. -/
def spec_type_penalty (type_compatible : Bool) (c : ℚ) : ℚ :=
  if type_compatible then c else c * (3 / 10)

/-- §4.3 step 3: boost (capped at 1) when the normalized types coincide. -/
def spec_ident_boost (sf tf : Field) (c : ℚ) : ℚ :=
  if are_types_identical sf.data_type tf.data_type then min 1 (c * (6 / 5)) else c

/-- §4.3 step 4: boost (capped at 1) when the nullability flags agree. -/
def spec_null_match_boost (sf tf : Field) (c : ℚ) : ℚ :=
  if sf.nullable = tf.nullable then min 1 (c * (21 / 20)) else c

/-- §4.3 steps 5-6: the two directional nullability penalties. -/
def spec_null_penalties (sf tf : Field) (c : ℚ) : ℚ :=
  let c1 := if sf.nullable = false ∧ tf.nullable = true then c * (19 / 20) else c
  if sf.nullable = true ∧ tf.nullable = false then c1 * (17 / 20) else c1

/-- §4.3 as one pipeline: similarity, type penalty, identical-type boost,
nullability adjustments, final clamp to `[0,1]`. -/
def spec_confidence (s : ℚ) (tc : Bool) (sf tf : Field) : ℚ :=
  min 1 (max 0 (spec_null_penalties sf tf
    (spec_null_match_boost sf tf (spec_ident_boost sf tf (spec_type_penalty tc s)))))

/-- A small concrete source schema used by witnesses. -/
def sample_source : Schema := ⟨"s", "s", 1, [⟨"a", "INT", true⟩, ⟨"b", "VARCHAR", true⟩]⟩

/-- A small concrete target schema used by witnesses. -/
def sample_target : Schema := ⟨"t", "t", 1, [⟨"a", "INT", true⟩]⟩

/-- A one-entry mapping dict used by witnesses. -/
def sample_dict : List (String × FieldMapping) :=
  [("a", ⟨"a", "a", none, 1, MappingType.direct⟩)]

theorem make_generated_mapping_source_field (sf tf : Field) (c : ℚ) :
    (make_generated_mapping sf tf c).source_field = sf.name := by
  unfold make_generated_mapping
  split <;> rfl

theorem make_generated_mapping_target_field (sf tf : Field) (c : ℚ) :
    (make_generated_mapping sf tf c).target_field = tf.name := by
  unfold make_generated_mapping
  split <;> rfl

theorem make_generated_mapping_confidence (sf tf : Field) (c : ℚ) :
    (make_generated_mapping sf tf c).confidence = c := by
  unfold make_generated_mapping
  split <;> rfl

theorem alist_del_of_get_none {β : Type} (k : String) (d : List (String × β))
    (h : alist_get k d = none) : alist_del k d = d := by
  induction d with
  | nil => rfl
  | cons p t ih =>
    unfold alist_get at h
    unfold alist_del
    by_cases hk : p.1 = k
    · simp [hk] at h
    · simp only [if_neg hk] at h ⊢
      rw [ih h]

theorem alist_get_put_self {β : Type} (k : String) (v : β) (d : List (String × β)) :
    alist_get k (alist_put k v d) = some v := by
  induction d with
  | nil => simp [alist_put, alist_get]
  | cons p t ih =>
    unfold alist_put
    by_cases hk : p.1 = k
    · simp [hk, alist_get]
    · simp only [if_neg hk]
      unfold alist_get
      simp [hk, ih]

/-- **C5.** For every similarity value in `[0,1]`, type-compatibility
boolean and pair of fields, `_calculate_confidence` applies exactly the
§4.3 sequence — start from similarity, multiply by 0.3 on incompatible
types, cap-boost by 1.2 on identical normalized types, cap-boost by 1.05 on
equal nullability, multiply by 0.95 (source non-nullable, target nullable)
or 0.85 (source nullable, target non-nullable), then clamp — and the result
always lies in `[0,1]`. -/
theorem c5_confidence_sequence (s : ℚ) (tc : Bool) (sf tf : Field)
    (_h0 : 0 ≤ s) (_h1 : s ≤ 1) :
    calculate_confidence s tc sf tf = spec_confidence s tc sf tf ∧
      0 ≤ calculate_confidence s tc sf tf ∧ calculate_confidence s tc sf tf ≤ 1 := by
  refine ⟨?_, ?_, ?_⟩
  · unfold calculate_confidence spec_confidence spec_null_penalties spec_null_match_boost
      spec_ident_boost spec_type_penalty
    cases hsf : sf.nullable <;> cases htf : tf.nullable <;> simp
  · unfold calculate_confidence
    exact le_min zero_le_one (le_max_left 0 _)
  · unfold calculate_confidence
    exact min_le_left 1 _

/-- Witness for C5 at similarity 1/2, compatible types, two concrete
fields. -/
theorem c5_confidence_sequence_witness :
    (0 : ℚ) ≤ 1 / 2 ∧ (1 / 2 : ℚ) ≤ 1 ∧
      (calculate_confidence (1 / 2) true ⟨"a", "INT", true⟩ ⟨"b", "INT", true⟩ =
          spec_confidence (1 / 2) true ⟨"a", "INT", true⟩ ⟨"b", "INT", true⟩ ∧
        0 ≤ calculate_confidence (1 / 2) true ⟨"a", "INT", true⟩ ⟨"b", "INT", true⟩ ∧
        calculate_confidence (1 / 2) true ⟨"a", "INT", true⟩ ⟨"b", "INT", true⟩ ≤ 1) :=
  ⟨by norm_num, by norm_num,
    c5_confidence_sequence (1 / 2) true ⟨"a", "INT", true⟩ ⟨"b", "INT", true⟩
      (by norm_num) (by norm_num)⟩

/-- **C7.** With no cached snapshot, `detect_schema_changes` caches the
supplied schema and returns an empty change list; if a cached snapshot
exists and the produced change list is empty, the snapshot cache is left
exactly as it was (it is replaced only on a non-empty change list). -/
theorem c7_differ_cold_start_and_frame (cache : List (String × Schema)) (sid : String)
    (ns : Schema) :
    (alist_get sid cache = none →
      detect_schema_changes cache sid ns = ([], alist_put sid ns cache)) ∧
      (∀ old, alist_get sid cache = some old →
        (detect_schema_changes cache sid ns).1 = [] →
        (detect_schema_changes cache sid ns).2 = cache) := by
  constructor
  · intro h
    unfold detect_schema_changes
    rw [h]
  · intro old h hempty
    unfold detect_schema_changes at hempty ⊢
    rw [h] at hempty ⊢
    by_cases hc : detect_changes_list sid old ns = []
    · simp [hc]
    · simp [hc] at hempty

/-- Witness for C7: a cold-start call on an empty cache, and a repeat call
with an identical snapshot leaving a one-entry cache untouched. -/
theorem c7_differ_cold_start_and_frame_witness :
    (alist_get "s1" ([] : List (String × Schema)) = none ∧
      detect_schema_changes [] "s1" ⟨"v1", "s1", 1, [⟨"id", "INTEGER", false⟩]⟩ =
        ([], alist_put "s1" ⟨"v1", "s1", 1, [⟨"id", "INTEGER", false⟩]⟩ [])) ∧
      (alist_get "s1" [("s1", (⟨"v1", "s1", 1, [⟨"id", "INTEGER", false⟩]⟩ : Schema))] =
          some ⟨"v1", "s1", 1, [⟨"id", "INTEGER", false⟩]⟩ ∧
        (detect_schema_changes [("s1", ⟨"v1", "s1", 1, [⟨"id", "INTEGER", false⟩]⟩)] "s1"
            ⟨"v1", "s1", 1, [⟨"id", "INTEGER", false⟩]⟩).1 = [] ∧
        (detect_schema_changes [("s1", ⟨"v1", "s1", 1, [⟨"id", "INTEGER", false⟩]⟩)] "s1"
            ⟨"v1", "s1", 1, [⟨"id", "INTEGER", false⟩]⟩).2 =
          [("s1", ⟨"v1", "s1", 1, [⟨"id", "INTEGER", false⟩]⟩)]) :=
  ⟨⟨by decide,
      (c7_differ_cold_start_and_frame [] "s1" ⟨"v1", "s1", 1, [⟨"id", "INTEGER", false⟩]⟩).1
        (by decide)⟩,
    ⟨by decide, by decide,
      (c7_differ_cold_start_and_frame [("s1", ⟨"v1", "s1", 1, [⟨"id", "INTEGER", false⟩]⟩)]
            "s1" ⟨"v1", "s1", 1, [⟨"id", "INTEGER", false⟩]⟩).2
        ⟨"v1", "s1", 1, [⟨"id", "INTEGER", false⟩]⟩ (by decide) (by decide)⟩⟩

/-- **C8.** `update_mappings` folds `update_step` over the batch, so the
behavior of each change is isolated: a `removed` change deletes the entry
keyed by its field name (a no-op when absent); an `added` or `type_changed`
change whose field name is absent from the supplied source schema leaves
the mapping dict untouched (the fold then continues with the remaining
changes); a `modified` change is never processed. -/
theorem c8_update_partial_failure_isolation (source target : Schema)
    (used : List String) (d : List (String × FieldMapping)) (sid n : String)
    (ov nv : Option String) :
    (update_step source target used d ⟨sid, "removed", n, ov, nv⟩ = alist_del n d) ∧
      (alist_get n d = none → update_step source target used d ⟨sid, "removed", n, ov, nv⟩ = d) ∧
      (first_field_named n source.fields = none →
        update_step source target used d ⟨sid, "added", n, ov, nv⟩ = d ∧
          update_step source target used d ⟨sid, "type_changed", n, ov, nv⟩ = d) ∧
      (update_step source target used d ⟨sid, "modified", n, ov, nv⟩ = d) := by
  refine ⟨?_, ?_, ?_, ?_⟩
  · unfold update_step
    simp
  · intro h
    unfold update_step
    simp [alist_del_of_get_none n d h]
  · intro h
    constructor
    · unfold update_step
      simp [h]
    · unfold update_step
      simp only [String.reduceEq, if_false, if_true, reduceIte]
      cases hg : alist_get n d with
      | none => rfl
      | some old => rw [h]
  · unfold update_step
    simp

/-- Witness for C8 on a one-entry dict and a source schema lacking the
field `ghost`. -/
theorem c8_update_partial_failure_isolation_witness :
    alist_get "ghost" sample_dict = none ∧
      first_field_named "ghost" sample_source.fields = none ∧
      update_step sample_source sample_target [] sample_dict
          ⟨"s", "removed", "a", none, none⟩ = alist_del "a" sample_dict ∧
      update_step sample_source sample_target [] sample_dict
          ⟨"s", "removed", "ghost", none, none⟩ = sample_dict ∧
      update_step sample_source sample_target [] sample_dict
          ⟨"s", "added", "ghost", none, none⟩ = sample_dict ∧
      update_step sample_source sample_target [] sample_dict
          ⟨"s", "type_changed", "ghost", none, none⟩ = sample_dict ∧
      update_step sample_source sample_target [] sample_dict
          ⟨"s", "modified", "a", none, none⟩ = sample_dict :=
  ⟨by decide, by decide,
    (c8_update_partial_failure_isolation sample_source sample_target [] sample_dict
        "s" "a" none none).1,
    (c8_update_partial_failure_isolation sample_source sample_target [] sample_dict
        "s" "ghost" none none).2.1 (by decide),
    ((c8_update_partial_failure_isolation sample_source sample_target [] sample_dict
        "s" "ghost" none none).2.2.1 (by decide)).1,
    ((c8_update_partial_failure_isolation sample_source sample_target [] sample_dict
        "s" "ghost" none none).2.2.1 (by decide)).2,
    (c8_update_partial_failure_isolation sample_source sample_target [] sample_dict
        "s" "a" none none).2.2.2⟩

/-- Counterexample to **C3** as stated: `NUMERIC` and `SMALLINT` both lie
in the claim's integer/numeric family, yet the compatibility check rejects
the ordered pair (`NUMERIC`'s matrix row omits `SMALLINT` and `INT`). -/
theorem c3_type_family_counterexample :
    "NUMERIC" ∈ integer_family ∧ "SMALLINT" ∈ integer_family ∧
      check_type_compatibility "NUMERIC" "SMALLINT" = false := by
  decide

/-- Counterexample to **C4** as stated: `INTEGER` and `integer(10)` have
equal normalized forms, yet the differ (which compares and reports the raw
`data_type` strings) emits a `type_changed` change carrying the raw
spellings. -/
theorem c4_raw_type_comparison_counterexample :
    normalize_type "INTEGER" = normalize_type "integer(10)" ∧
      detect_changes_list "src" ⟨"v1", "src", 1, [⟨"amount", "INTEGER", false⟩]⟩
          ⟨"v2", "src", 2, [⟨"amount", "integer(10)", false⟩]⟩ =
        [⟨"src", "type_changed", "amount", some "INTEGER", some "integer(10)"⟩] := by
  decide

/-- Counterexample to **C6** as stated: the name-similarity function is not
symmetric — `SequenceMatcher`'s longest-match tie-breaking depends on the
argument order (2/3 versus 1/3 on this pair). -/
theorem c6_symmetry_counterexample :
    calculate_name_similarity "ab" "bacb" ≠ calculate_name_similarity "bacb" "ab" := by
  with_unfolding_all decide

/-- Counterexample to **C2** as stated: a single `update_mappings` batch
with two `added` changes maps two distinct new source fields onto the same
target field, because availability is checked against the pre-batch mapping
list only. -/
theorem c2_duplicate_target_counterexample :
    ((update_mappings [] [⟨"s", "added", "user_email", none, none⟩,
            ⟨"s", "added", "userEmail", none, none⟩]
          ⟨"s", "s", 1, [⟨"user_email", "VARCHAR", true⟩, ⟨"userEmail", "VARCHAR", true⟩]⟩
          ⟨"t", "t", 1, [⟨"useremail", "VARCHAR", true⟩]⟩).1.map
        (fun m => m.target_field) = ["useremail", "useremail"]) ∧
      ¬ ((update_mappings [] [⟨"s", "added", "user_email", none, none⟩,
            ⟨"s", "added", "userEmail", none, none⟩]
          ⟨"s", "s", 1, [⟨"user_email", "VARCHAR", true⟩, ⟨"userEmail", "VARCHAR", true⟩]⟩
          ⟨"t", "t", 1, [⟨"useremail", "VARCHAR", true⟩]⟩).1.map
        (fun m => m.target_field)).Nodup := by
  with_unfolding_all decide

/-- **C3 (amended).** Within each family the compatibility check accepts
every ordered pair except the matrix's gaps: `NUMERIC`/`DECIMAL` toward
`SMALLINT`/`INT`, and `BIT`/`VARBINARY` (absent as matrix keys) toward
anything but themselves.  Cross-family pairs (sharing no family) are
rejected, and a normalized type that is not a matrix key is compatible only
with itself. -/
theorem c3_type_families_amended :
    (∀ fam ∈ claim_families, ∀ a ∈ fam, ∀ b ∈ fam,
        (check_type_compatibility a b = true ↔ ¬ family_exception a b)) ∧
      (∀ a ∈ all_family_types, ∀ b ∈ all_family_types,
        (∀ fam ∈ claim_families, ¬(a ∈ fam ∧ b ∈ fam)) →
          check_type_compatibility a b = false) ∧
      (∀ a b : String, normalize_type a = a → alist_get a TYPE_COMPATIBILITY = none →
        (check_type_compatibility a b = true ↔ normalize_type b = a)) := by
  refine ⟨by decide, by decide, ?_⟩
  intro a b h1 h2
  unfold check_type_compatibility
  simp only [h1, h2]
  by_cases hb : a = normalize_type b
  · simp [hb]
  · simp only [if_neg hb]
    constructor
    · intro hfalse
      exact absurd hfalse (by simp)
    · intro hba
      exact absurd hba.symm hb

/-- Witness for C3 (amended): the unlisted type `FOO` is compatible with
itself and with nothing else the model can name. -/
theorem c3_type_families_amended_witness :
    normalize_type "FOO" = "FOO" ∧ alist_get "FOO" TYPE_COMPATIBILITY = none ∧
      (check_type_compatibility "FOO" "FOO" = true ↔ normalize_type "FOO" = "FOO") :=
  ⟨by decide, by decide,
    c3_type_families_amended.2.2 "FOO" "FOO" (by decide) (by decide)⟩

theorem field_get_name {fs : List Field} {n : String} {f : Field}
    (h : field_get fs n = some f) : f.name = n := by
  have := List.find?_some h
  simpa using this

theorem mem_dict_keys {fs : List Field} {n : String} :
    n ∈ dict_keys fs ↔ n ∈ fs.map (fun f => f.name) := by
  induction fs with
  | nil => simp [dict_keys]
  | cons f t ih => by_cases h : n = f.name <;> simp [dict_keys, List.mem_filter, h, ih]

theorem nodup_dict_keys (fs : List Field) : (dict_keys fs).Nodup := by
  induction fs with
  | nil => exact List.nodup_nil
  | cons f t ih =>
    refine List.nodup_cons.mpr ⟨?_, ih.filter _⟩
    simp [List.mem_filter]

theorem field_get_mem_keys {fs : List Field} {n : String} {f : Field}
    (h : field_get fs n = some f) : n ∈ dict_keys fs := by
  rw [mem_dict_keys]
  have hmem : f ∈ fs := List.mem_reverse.mp (List.mem_of_find?_eq_some h)
  exact List.mem_map.mpr ⟨f, hmem, field_get_name h⟩

theorem flatMap_eq_single {α β : Type} {l : List α} {x : α} {h : α → List β}
    (hnd : l.Nodup) (hx : x ∈ l) (hz : ∀ y ∈ l, y ≠ x → h y = []) :
    l.flatMap h = h x := by
  induction l with
  | nil => cases hx
  | cons a t ih =>
    rcases List.mem_cons.mp hx with rfl | hxt
    · have htail : t.flatMap h = [] := by
        refine List.flatMap_eq_nil_iff.mpr (fun y hy => hz y (List.mem_cons_of_mem _ hy) ?_)
        rintro rfl
        exact (List.nodup_cons.mp hnd).1 hy
      simp [List.flatMap_cons, htail]
    · have ha : h a = [] := by
        refine hz a (List.mem_cons_self a t) ?_
        rintro rfl
        exact (List.nodup_cons.mp hnd).1 hxt
      rw [List.flatMap_cons, ha, List.nil_append]
      exact ih (List.nodup_cons.mp hnd).2 hxt
        (fun y hy hne => hz y (List.mem_cons_of_mem _ hy) hne)

/-- **C4 (amended).** For every field name present in both snapshots, the
differ emits a `type_changed` change exactly when the raw `data_type`
strings differ (no normalization is applied), and the change carries the
raw old and new type strings. -/
theorem c4_type_changed_raw_comparison (sid n : String) (oldS newS : Schema)
    (fo fn : Field) (ho : field_get oldS.fields n = some fo)
    (hn : field_get newS.fields n = some fn) :
    (detect_changes_list sid oldS newS).filter
        (fun c => decide (c.change_type = "type_changed" ∧ c.field_name = n)) =
      if fo.data_type = fn.data_type then []
      else [⟨sid, "type_changed", n, some fo.data_type, some fn.data_type⟩] := by
  unfold detect_changes_list
  rw [List.filter_append, List.filter_append]
  have hadded :
      ((dict_keys newS.fields).filterMap (fun m =>
          match field_get newS.fields m with
          | none => none
          | some nf =>
            if (field_get oldS.fields m).isNone then
              some (SchemaChange.mk sid "added" m none (some nf.data_type))
            else none)).filter
        (fun c => decide (c.change_type = "type_changed" ∧ c.field_name = n)) = [] := by
    refine List.filter_eq_nil_iff.mpr ?_
    intro c hc
    rcases List.mem_filterMap.mp hc with ⟨m, _, hsome⟩
    cases hg : field_get newS.fields m with
    | none => rw [hg] at hsome; cases hsome
    | some nf =>
      rw [hg] at hsome
      by_cases hins : (field_get oldS.fields m).isNone = true <;> simp [hins] at hsome
      rw [← hsome]
      simp
  have hremoved :
      ((dict_keys oldS.fields).filterMap (fun m =>
          match field_get oldS.fields m with
          | none => none
          | some of =>
            if (field_get newS.fields m).isNone then
              some (SchemaChange.mk sid "removed" m (some of.data_type) none)
            else none)).filter
        (fun c => decide (c.change_type = "type_changed" ∧ c.field_name = n)) = [] := by
    refine List.filter_eq_nil_iff.mpr ?_
    intro c hc
    rcases List.mem_filterMap.mp hc with ⟨m, _, hsome⟩
    cases hg : field_get oldS.fields m with
    | none => rw [hg] at hsome; cases hsome
    | some of =>
      rw [hg] at hsome
      by_cases hins : (field_get newS.fields m).isNone = true <;> simp [hins] at hsome
      rw [← hsome]
      simp
  rw [hadded, hremoved, List.nil_append, List.nil_append, List.filter_flatMap]
  rw [flatMap_eq_single (nodup_dict_keys oldS.fields) (field_get_mem_keys ho) ?side]
  case side =>
    intro m _ hne
    cases hg : field_get oldS.fields m with
    | none => simp [hg]
    | some of =>
      cases hg2 : field_get newS.fields m with
      | none => simp [hg, hg2]
      | some nf =>
        simp only [hg, hg2]
        refine List.filter_eq_nil_iff.mpr ?_
        intro c hc
        rcases List.mem_append.mp hc with hc | hc
        · by_cases hd : of.data_type ≠ nf.data_type <;> simp [hd] at hc
          rw [hc]
          simp [hne]
        · by_cases hb : of.nullable ≠ nf.nullable <;> simp [hb] at hc
          rw [hc]
          simp
  rw [ho, hn]
  by_cases hd : fo.data_type = fn.data_type <;>
    by_cases hb : fo.nullable = fn.nullable <;>
      simp [hd, hb, List.filter_append, List.filter]

/-- Witness for C4 (amended) on the `amount` field whose spelling changes
from `INTEGER` to `integer(10)`. -/
theorem c4_type_changed_raw_comparison_witness :
    field_get (Schema.mk "v1" "src" 1 [⟨"amount", "INTEGER", false⟩]).fields "amount" =
        some ⟨"amount", "INTEGER", false⟩ ∧
      field_get (Schema.mk "v2" "src" 2 [⟨"amount", "integer(10)", false⟩]).fields "amount" =
        some ⟨"amount", "integer(10)", false⟩ ∧
      (detect_changes_list "src" ⟨"v1", "src", 1, [⟨"amount", "INTEGER", false⟩]⟩
            ⟨"v2", "src", 2, [⟨"amount", "integer(10)", false⟩]⟩).filter
          (fun c => decide (c.change_type = "type_changed" ∧ c.field_name = "amount")) =
        if ("INTEGER" : String) = "integer(10)" then []
        else [⟨"src", "type_changed", "amount", some "INTEGER", some "integer(10)"⟩] :=
  ⟨by decide, by decide,
    c4_type_changed_raw_comparison "src" "amount"
      ⟨"v1", "src", 1, [⟨"amount", "INTEGER", false⟩]⟩
      ⟨"v2", "src", 2, [⟨"amount", "integer(10)", false⟩]⟩
      ⟨"amount", "INTEGER", false⟩ ⟨"amount", "integer(10)", false⟩ (by decide) (by decide)⟩

theorem hasSub_nil_pat (xs : List Char) : hasSub xs [] = true := by
  cases xs <;> simp [hasSub, leadsWith]

theorem matcher_score_left_nil {l : List Char} : matcher_score [] l = 0 ∨ l = [] := by
  cases l with
  | nil => exact Or.inr rfl
  | cons c t =>
    left
    unfold matcher_score
    simp [match_total]

theorem find_longest_match_right_nil (a : List Char) :
    find_longest_match a [] = (0, 0, 0) := by
  unfold find_longest_match
  simp

theorem match_total_right_nil (f : Nat) (a : List Char) : match_total f a [] = 0 := by
  cases f with
  | zero => rfl
  | succ f =>
    unfold match_total
    rw [find_longest_match_right_nil]
    simp

theorem matcher_score_right_nil {l : List Char} : matcher_score l [] = 0 ∨ l = [] := by
  cases hl : l with
  | nil => exact Or.inr rfl
  | cons c t =>
    left
    unfold matcher_score
    simp [match_total_right_nil]

/-- **C10.** If exactly one of the two names normalizes to the empty
string, the name similarity is at least 0.8 in both argument orders (the
empty normalized string counts as a substring of the other); if both
normalize to the empty string the similarity is exactly 1. -/
theorem c10_empty_normalized_name (a b : String)
    (ha : norm_name a = []) (hb : norm_name b ≠ []) :
    ((4 : ℚ) / 5 ≤ calculate_name_similarity a b ∧
        (4 : ℚ) / 5 ≤ calculate_name_similarity b a) ∧
      (∀ c : String, norm_name c = [] → calculate_name_similarity a c = 1) := by
  constructor
  · constructor
    · unfold calculate_name_similarity
      have hne : norm_name a ≠ norm_name b := by
        rw [ha]
        exact fun h => hb h.symm
      rw [if_neg hne]
      have hcond : (hasSub (norm_name b) (norm_name a) || hasSub (norm_name a) (norm_name b)) =
          true := by
        rw [ha, hasSub_nil_pat]
        simp
      rw [hcond]
      simp only [if_true]
      refine List.foldlRecOn common_abbreviations _ _ (le_max_right _ _) ?_
      intro q hq p _
      split
      · exact le_trans hq (le_max_left _ _)
      · exact hq
    · unfold calculate_name_similarity
      have hne : norm_name b ≠ norm_name a := by
        rw [ha]
        exact hb
      rw [if_neg hne]
      have hcond : (hasSub (norm_name a) (norm_name b) || hasSub (norm_name b) (norm_name a)) =
          true := by
        rw [ha, hasSub_nil_pat]
        simp
      rw [hcond]
      simp only [if_true]
      refine List.foldlRecOn common_abbreviations _ _ (le_max_right _ _) ?_
      intro q hq p _
      split
      · exact le_trans hq (le_max_left _ _)
      · exact hq
  · intro c hc
    unfold calculate_name_similarity
    rw [ha, hc]
    simp

/-- Witness for C10 with `a := "_"` (normalizes to empty) and
`b := "x"`. -/
theorem c10_empty_normalized_name_witness :
    norm_name "_" = [] ∧ norm_name "x" ≠ [] ∧
      ((4 : ℚ) / 5 ≤ calculate_name_similarity "_" "x" ∧
          (4 : ℚ) / 5 ≤ calculate_name_similarity "x" "_") ∧
      calculate_name_similarity "_" "-" = 1 :=
  ⟨by decide, by decide,
    (c10_empty_normalized_name "_" "x" (by decide) (by decide)).1,
    (c10_empty_normalized_name "_" "x" (by decide) (by decide)).2 "-" (by decide)⟩

theorem cpl_le_left : ∀ (a b : List Char), cpl a b ≤ a.length
  | [], b => by cases b <;> simp [cpl]
  | _ :: _, [] => by simp [cpl]
  | x :: xs, y :: ys => by
    simp only [cpl, List.length_cons]
    split
    · have := cpl_le_left xs ys
      omega
    · omega

theorem cpl_le_right : ∀ (a b : List Char), cpl a b ≤ b.length
  | [], b => by cases b <;> simp [cpl]
  | x :: xs, [] => by
    have h : cpl (x :: xs) [] = 0 := rfl
    exact le_of_eq h
  | x :: xs, y :: ys => by
    simp only [cpl, List.length_cons]
    split
    · have := cpl_le_right xs ys
      omega
    · omega

theorem find_longest_match_bound (a b : List Char) :
    (find_longest_match a b).1 + (find_longest_match a b).2.2 ≤ a.length ∧
      (find_longest_match a b).2.1 + (find_longest_match a b).2.2 ≤ b.length := by
  unfold find_longest_match
  refine List.foldlRecOn
    (motive := fun x : Nat × Nat × Nat =>
      x.1 + x.2.2 ≤ a.length ∧ x.2.1 + x.2.2 ≤ b.length)
    _ _ _ ⟨Nat.zero_le _, Nat.zero_le _⟩ ?_
  intro acc hacc i hi
  refine List.foldlRecOn
    (motive := fun x : Nat × Nat × Nat =>
      x.1 + x.2.2 ≤ a.length ∧ x.2.1 + x.2.2 ≤ b.length)
    _ _ _ hacc ?_
  intro acc2 hacc2 j hj
  dsimp only
  split
  · have h1 := cpl_le_left (a.drop i) (b.drop j)
    have h2 := cpl_le_right (a.drop i) (b.drop j)
    rw [List.length_drop] at h1
    rw [List.length_drop] at h2
    have hi' := List.mem_range.mp hi
    have hj' := List.mem_range.mp hj
    constructor <;> simp <;> omega
  · exact hacc2

theorem match_total_le (f : Nat) : ∀ (a b : List Char),
    match_total f a b ≤ min a.length b.length := by
  induction f with
  | zero =>
    intro a b
    simp [match_total]
  | succ f ih =>
    intro a b
    obtain ⟨h1, h2⟩ := find_longest_match_bound a b
    unfold match_total
    dsimp only
    split
    · exact Nat.zero_le _
    · next hk =>
      have ihl := ih (a.take (find_longest_match a b).1) (b.take (find_longest_match a b).2.1)
      have ihr := ih (a.drop ((find_longest_match a b).1 + (find_longest_match a b).2.2))
        (b.drop ((find_longest_match a b).2.1 + (find_longest_match a b).2.2))
      rw [List.length_take, List.length_take] at ihl
      rw [List.length_drop, List.length_drop] at ihr
      omega

theorem matcher_score_bounds (a b : List Char) :
    0 ≤ matcher_score a b ∧ matcher_score a b ≤ 1 := by
  unfold matcher_score
  split
  · norm_num
  · next h =>
    have hM := match_total_le a.length a b
    have hpos : (0 : ℚ) < (a.length : ℚ) + (b.length : ℚ) := by
      have : 0 < a.length + b.length := Nat.pos_of_ne_zero h
      exact_mod_cast this
    constructor
    · apply div_nonneg _ (le_of_lt hpos)
      positivity
    · rw [div_le_one hpos]
      have : 2 * match_total a.length a b ≤ a.length + b.length := by omega
      exact_mod_cast this

theorem calculate_name_similarity_bounds (a b : String) :
    0 ≤ calculate_name_similarity a b ∧ calculate_name_similarity a b ≤ 1 := by
  unfold calculate_name_similarity
  by_cases heq : norm_name a = norm_name b
  · simp [heq]
  · simp only [if_neg heq]
    have h0 := matcher_score_bounds (norm_name a) (norm_name b)
    have hs1 : 0 ≤ (if hasSub (norm_name b) (norm_name a) || hasSub (norm_name a) (norm_name b)
          then max (matcher_score (norm_name a) (norm_name b)) (4 / 5)
          else matcher_score (norm_name a) (norm_name b)) ∧
        (if hasSub (norm_name b) (norm_name a) || hasSub (norm_name a) (norm_name b)
          then max (matcher_score (norm_name a) (norm_name b)) (4 / 5)
          else matcher_score (norm_name a) (norm_name b)) ≤ 1 := by
      split
      · exact ⟨le_trans h0.1 (le_max_left _ _), max_le h0.2 (by norm_num)⟩
      · exact h0
    refine List.foldlRecOn (motive := fun s => 0 ≤ s ∧ s ≤ 1) common_abbreviations _ _ hs1 ?_
    intro q hq p _
    split
    · exact ⟨le_trans hq.1 (le_max_left _ _), max_le hq.2 (by norm_num)⟩
    · exact hq

/-- **C6 (amended).** The name-similarity function returns exactly 1.0 on
equal names and always lands in `[0,1]`; it is not symmetric in general
(see the counterexample: `SequenceMatcher`'s tie-breaking between equally
long matching blocks depends on the argument order). -/
theorem c6_similarity_refl_and_range (a b : String) :
    calculate_name_similarity a a = 1 ∧
      0 ≤ calculate_name_similarity a b ∧ calculate_name_similarity a b ≤ 1 := by
  refine ⟨?_, calculate_name_similarity_bounds a b⟩
  unfold calculate_name_similarity
  simp

theorem foldl_filter_skip {α β : Type} (p : α → Bool) (f : β → α → β) (b : β)
    (l : List α) :
    (l.filter p).foldl f b = l.foldl (fun acc x => if p x then f acc x else acc) b := by
  induction l generalizing b with
  | nil => rfl
  | cons x t ih => by_cases h : p x <;> simp [List.filter_cons, h, ih]

theorem gen_best_loop (tf : Field) (claimed : List String) :
    ∀ (l : List Field) (o : Option (Field × ℚ)),
      l.foldl
          (fun acc sf =>
            if sf.name ∈ claimed then acc
            else
              let conf := candidate_confidence sf tf
              if acc.2 < conf then (some (make_generated_mapping sf tf conf), conf) else acc)
          (encode_best tf o) =
        encode_best tf
          (l.foldl
            (fun best sf =>
              if !(decide (sf.name ∈ claimed)) then
                let conf := candidate_confidence sf tf
                match best with
                | none => if 0 < conf then some (sf, conf) else none
                | some p => if p.2 < conf then some (sf, conf) else best
              else best)
            o)
  | [], o => rfl
  | sf :: l, o => by
    rw [List.foldl_cons, List.foldl_cons]
    by_cases h : sf.name ∈ claimed
    · have hcond : (!decide (sf.name ∈ claimed)) = false := by simp [h]
      rw [if_pos h, hcond]
      simp only [Bool.false_eq_true, if_false]
      exact gen_best_loop tf claimed l o
    · have hcond : (!decide (sf.name ∈ claimed)) = true := by simp [h]
      rw [if_neg h, hcond]
      simp only [reduceIte]
      cases o with
      | none =>
        dsimp only [encode_best]
        by_cases hc : (0 : ℚ) < candidate_confidence sf tf
        · rw [if_pos hc, if_pos hc]
          exact gen_best_loop tf claimed l (some (sf, candidate_confidence sf tf))
        · rw [if_neg hc, if_neg hc]
          exact gen_best_loop tf claimed l none
      | some p =>
        dsimp only [encode_best]
        by_cases hc : p.2 < candidate_confidence sf tf
        · rw [if_pos hc, if_pos hc]
          exact gen_best_loop tf claimed l (some (sf, candidate_confidence sf tf))
        · rw [if_neg hc, if_neg hc]
          exact gen_best_loop tf claimed l (some p)

theorem gen_best_eq_encode (tf : Field) (claimed : List String) (sfields : List Field) :
    gen_best tf claimed sfields =
      encode_best tf (pick_best_candidate tf
        (sfields.filter (fun sf => !(decide (sf.name ∈ claimed))))) := by
  unfold gen_best pick_best_candidate
  rw [foldl_filter_skip]
  exact gen_best_loop tf claimed sfields none

theorem gen_step_eq (sfields : List Field) (acc : List FieldMapping × List String)
    (tf : Field) : gen_step sfields acc tf = gen_step_spec sfields acc tf := by
  unfold gen_step gen_step_spec
  dsimp only
  rw [gen_best_eq_encode]
  cases hp : pick_best_candidate tf (sfields.filter fun sf => !(decide (sf.name ∈ acc.2))) with
  | none => rfl
  | some p =>
    dsimp only [encode_best]
    by_cases h : (3 / 10 : ℚ) < p.2
    · simp only [if_pos h, make_generated_mapping_source_field]
    · simp only [if_neg h]

/-- **C1.** `generate_mappings` implements exactly the §4.4 greedy
assignment: target fields in declared order, candidates restricted to
not-yet-claimed source fields, strictly-best candidate kept (first wins on
ties), accepted only above confidence 0.3, accepted source fields claimed
for the rest of the pass, and unmatched target fields absent from the
output. -/
theorem c1_generate_mappings_greedy (source target : Schema) :
    generate_mappings source target = generate_mappings_spec source target := by
  unfold generate_mappings generate_mappings_spec
  rw [List.foldl_ext (gen_step source.fields) (gen_step_spec source.fields) ([], [])
    (fun acc tf _ => gen_step_eq source.fields acc tf)]

theorem gen_best_inv (tf : Field) (claimed : List String) (sfields : List Field) :
    ∀ m, (gen_best tf claimed sfields).1 = some m →
      m.source_field ∉ claimed ∧ m.target_field = tf.name := by
  unfold gen_best
  refine List.foldlRecOn
    (motive := fun acc : Option FieldMapping × ℚ => ∀ m, acc.1 = some m →
      m.source_field ∉ claimed ∧ m.target_field = tf.name)
    _ _ _ ?_ ?_
  · intro m h
    simp at h
  · intro acc hacc sf _
    dsimp only
    by_cases h : sf.name ∈ claimed
    · rw [if_pos h]
      exact hacc
    · rw [if_neg h]
      by_cases hc : acc.2 < candidate_confidence sf tf
      · rw [if_pos hc]
        intro m hm
        have hm' : make_generated_mapping sf tf (candidate_confidence sf tf) = m :=
          Option.some.inj hm
        rw [← hm', make_generated_mapping_source_field, make_generated_mapping_target_field]
        exact ⟨h, rfl⟩
      · rw [if_neg hc]
        exact hacc

theorem gen_step_cases (sfields : List Field) (acc : List FieldMapping × List String)
    (tf : Field) :
    gen_step sfields acc tf = acc ∨
      ∃ m, gen_step sfields acc tf = (acc.1 ++ [m], acc.2 ++ [m.source_field]) ∧
        m.source_field ∉ acc.2 ∧ m.target_field = tf.name := by
  unfold gen_step
  dsimp only
  cases hg : (gen_best tf acc.2 sfields).1 with
  | none => exact Or.inl rfl
  | some m =>
    dsimp only
    by_cases hc : (3 / 10 : ℚ) < (gen_best tf acc.2 sfields).2
    · right
      refine ⟨m, by rw [if_pos hc], ?_, ?_⟩
      · exact (gen_best_inv tf acc.2 sfields m hg).1
      · exact (gen_best_inv tf acc.2 sfields m hg).2
    · left
      rw [if_neg hc]

theorem gen_fold_sources (sfields : List Field) :
    ∀ (tfs : List Field) (acc : List FieldMapping × List String),
      ((acc.1.map (fun m => m.source_field)).Nodup ∧
        ∀ m ∈ acc.1, m.source_field ∈ acc.2) →
      (((tfs.foldl (gen_step sfields) acc).1.map (fun m => m.source_field)).Nodup ∧
        ∀ m ∈ (tfs.foldl (gen_step sfields) acc).1,
          m.source_field ∈ (tfs.foldl (gen_step sfields) acc).2)
  | [], _, h => h
  | tf :: tfs, acc, h => by
    rw [List.foldl_cons]
    apply gen_fold_sources sfields tfs
    rcases gen_step_cases sfields acc tf with he | ⟨m, he, hnot, _⟩
    · rw [he]
      exact h
    · rw [he]
      constructor
      · rw [List.map_append]
        refine List.nodup_append.mpr ⟨h.1, List.nodup_singleton _, ?_⟩
        intro x hx hx'
        rcases List.mem_map.mp hx with ⟨m', hm', hname⟩
        rcases List.mem_singleton.mp hx' with rfl
        have hsrc : m'.source_field = m.source_field := hname
        have hin := h.2 m' hm'
        rw [hsrc] at hin
        exact hnot hin
      · intro m' hm'
        rcases List.mem_append.mp hm' with hm' | hm'
        · exact List.mem_append.mpr (Or.inl (h.2 m' hm'))
        · rcases List.mem_singleton.mp hm' with rfl
          exact List.mem_append.mpr (Or.inr (List.mem_singleton.mpr rfl))

theorem gen_fold_targets (sfields : List Field) :
    ∀ (tfs : List Field) (acc : List FieldMapping × List String),
      (tfs.map (fun f => f.name)).Nodup →
      (acc.1.map (fun m => m.target_field)).Nodup →
      (∀ m ∈ acc.1, m.target_field ∉ tfs.map (fun f => f.name)) →
      ((tfs.foldl (gen_step sfields) acc).1.map (fun m => m.target_field)).Nodup
  | [], _, _, h2, _ => h2
  | tf :: tfs, acc, h1, h2, h3 => by
    rw [List.foldl_cons]
    rw [List.map_cons] at h1
    have h1h : tf.name ∉ tfs.map (fun f => f.name) := (List.nodup_cons.mp h1).1
    have h1t : (tfs.map (fun f => f.name)).Nodup := (List.nodup_cons.mp h1).2
    rcases gen_step_cases sfields acc tf with he | ⟨m, he, _, htgt⟩
    · rw [he]
      refine gen_fold_targets sfields tfs acc h1t h2 ?_
      intro m' hm' hmem
      refine h3 m' hm' ?_
      rw [List.map_cons]
      exact List.mem_cons_of_mem _ hmem
    · rw [he]
      refine gen_fold_targets sfields tfs _ h1t ?_ ?_
      · rw [List.map_append]
        refine List.nodup_append.mpr ⟨h2, List.nodup_singleton _, ?_⟩
        intro x hx hx'
        rcases List.mem_map.mp hx with ⟨m', hm', hname⟩
        rcases List.mem_singleton.mp hx' with rfl
        have htg : m'.target_field = tf.name := by
          have h0 : m'.target_field = m.target_field := hname
          rw [h0, htgt]
        refine h3 m' hm' ?_
        rw [List.map_cons, htg]
        exact List.mem_cons_self _ _
      · intro m' hm' hmem
        rcases List.mem_append.mp hm' with hm' | hm'
        · refine h3 m' hm' ?_
          rw [List.map_cons]
          exact List.mem_cons_of_mem _ hmem
        · rcases List.mem_singleton.mp hm' with rfl
          refine h1h ?_
          rw [← htgt]
          exact hmem

theorem first_field_named_name {n : String} {fs : List Field} {f : Field}
    (h : first_field_named n fs = some f) : f.name = n := by
  have := List.find?_some h
  simpa using this

theorem find_added_mapping_some {nf : Field} {used : List String} :
    ∀ {tfs : List Field} {m : FieldMapping}, find_added_mapping nf used tfs = some m →
      m.source_field = nf.name ∧ (1 / 2 : ℚ) < m.confidence ∧
        ∃ tf ∈ tfs, tf.name ∉ used ∧
          m = make_generated_mapping nf tf (candidate_confidence nf tf)
  | [], m, h => by cases h
  | tf :: tfs, m, h => by
    unfold find_added_mapping at h
    by_cases hu : tf.name ∈ used
    · rw [if_pos hu] at h
      obtain ⟨ha, hb, tf', htf', hc, hd⟩ := find_added_mapping_some h
      exact ⟨ha, hb, tf', List.mem_cons_of_mem _ htf', hc, hd⟩
    · rw [if_neg hu] at h
      dsimp only at h
      by_cases hc : (1 / 2 : ℚ) < candidate_confidence nf tf
      · rw [if_pos hc] at h
        have hm := Option.some.inj h
        refine ⟨by rw [← hm, make_generated_mapping_source_field], ?_,
          tf, List.mem_cons_self tf tfs, hu, hm.symm⟩
        rw [← hm, make_generated_mapping_confidence]
        exact hc
      · rw [if_neg hc] at h
        obtain ⟨ha, hb, tf', htf', hc', hd⟩ := find_added_mapping_some h
        exact ⟨ha, hb, tf', List.mem_cons_of_mem _ htf', hc', hd⟩

theorem alist_put_mem {β : Type} {k : String} {v : β} :
    ∀ {d : List (String × β)} {p}, p ∈ alist_put k v d → p = (k, v) ∨ p ∈ d
  | [], p, h => by
    rcases List.mem_singleton.mp h with rfl
    exact Or.inl rfl
  | q :: t, p, h => by
    unfold alist_put at h
    by_cases hk : q.1 = k
    · rw [if_pos hk] at h
      rcases List.mem_cons.mp h with rfl | h
      · exact Or.inl rfl
      · exact Or.inr (List.mem_cons_of_mem _ h)
    · rw [if_neg hk] at h
      rcases List.mem_cons.mp h with rfl | h
      · exact Or.inr (List.mem_cons_self _ _)
      · rcases alist_put_mem h with h | h
        · exact Or.inl h
        · exact Or.inr (List.mem_cons_of_mem _ h)

theorem alist_put_keys {β : Type} (k : String) (v : β) :
    ∀ (d : List (String × β)),
      (alist_put k v d).map Prod.fst =
        if k ∈ d.map Prod.fst then d.map Prod.fst else d.map Prod.fst ++ [k]
  | [] => by simp [alist_put]
  | q :: t => by
    unfold alist_put
    by_cases hk : q.1 = k
    · rw [if_pos hk]
      simp [hk]
    · rw [if_neg hk]
      by_cases hm : k ∈ t.map Prod.fst
      · simp only [List.map_cons, alist_put_keys k v t, if_pos hm]
        rw [if_pos]
        simp [hm]
      · simp only [List.map_cons, alist_put_keys k v t, if_neg hm]
        rw [if_neg]
        · simp
        · simp [hm, Ne.symm hk]

theorem alist_put_keys_nodup {β : Type} {k : String} {v : β} {d : List (String × β)}
    (h : (d.map Prod.fst).Nodup) : ((alist_put k v d).map Prod.fst).Nodup := by
  rw [alist_put_keys]
  split
  · exact h
  · next hk =>
    refine List.nodup_append.mpr ⟨h, List.nodup_singleton _, ?_⟩
    intro x hx hx'
    rcases List.mem_singleton.mp hx' with rfl
    exact hk hx

theorem alist_del_mem {β : Type} {k : String} :
    ∀ {d : List (String × β)} {p}, p ∈ alist_del k d → p ∈ d
  | [], p, h => by cases h
  | q :: t, p, h => by
    unfold alist_del at h
    by_cases hk : q.1 = k
    · rw [if_pos hk] at h
      exact List.mem_cons_of_mem _ h
    · rw [if_neg hk] at h
      rcases List.mem_cons.mp h with rfl | h
      · exact List.mem_cons_self _ _
      · exact List.mem_cons_of_mem _ (alist_del_mem h)

theorem alist_del_keys_sublist {β : Type} (k : String) :
    ∀ (d : List (String × β)),
      ((alist_del k d).map Prod.fst).Sublist (d.map Prod.fst)
  | [] => List.Sublist.refl _
  | q :: t => by
    unfold alist_del
    by_cases hk : q.1 = k
    · rw [if_pos hk]
      exact (List.Sublist.refl _).cons _
    · rw [if_neg hk]
      simpa using (alist_del_keys_sublist k t).cons₂ q.1

theorem update_step_preserves_inv (source target : Schema) (used : List String)
    (d : List (String × FieldMapping)) (ch : SchemaChange)
    (h : ((d.map Prod.fst).Nodup ∧ ∀ p ∈ d, p.2.source_field = p.1)) :
    (((update_step source target used d ch).map Prod.fst).Nodup ∧
      ∀ p ∈ update_step source target used d ch, p.2.source_field = p.1) := by
  unfold update_step
  split
  · cases hf : first_field_named ch.field_name source.fields with
    | none => exact h
    | some nf =>
      dsimp only
      cases hm : find_added_mapping nf used target.fields with
      | none => exact h
      | some m =>
        dsimp only
        refine ⟨alist_put_keys_nodup h.1, ?_⟩
        intro p hp
        rcases alist_put_mem hp with rfl | hp
        · exact (find_added_mapping_some hm).1
        · exact h.2 p hp
  · split
    · refine ⟨(alist_del_keys_sublist ch.field_name d).nodup h.1, ?_⟩
      intro p hp
      exact h.2 p (alist_del_mem hp)
    · split
      · cases hg : alist_get ch.field_name d with
        | none => exact h
        | some old =>
          dsimp only
          cases hu : first_field_named ch.field_name source.fields with
          | none => exact h
          | some uf =>
            cases ht : first_field_named old.target_field target.fields with
            | none => exact h
            | some tf =>
              dsimp only
              refine ⟨alist_put_keys_nodup h.1, ?_⟩
              intro p hp
              rcases alist_put_mem hp with rfl | hp
              · rw [make_generated_mapping_source_field]
                exact first_field_named_name hu
              · exact h.2 p hp
      · exact h

theorem dict_of_mappings_inv (ms : List FieldMapping) :
    (((dict_of_mappings ms).map Prod.fst).Nodup ∧
      ∀ p ∈ dict_of_mappings ms, p.2.source_field = p.1) := by
  unfold dict_of_mappings
  refine List.foldlRecOn
    (motive := fun d : List (String × FieldMapping) =>
      ((d.map Prod.fst).Nodup ∧ ∀ p ∈ d, p.2.source_field = p.1))
    _ _ _ ⟨List.nodup_nil, by simp⟩ ?_
  intro d hd m _
  refine ⟨alist_put_keys_nodup hd.1, ?_⟩
  intro p hp
  rcases alist_put_mem hp with rfl | hp
  · rfl
  · exact hd.2 p hp

theorem values_sources_eq_keys (d : List (String × FieldMapping))
    (h : ∀ p ∈ d, p.2.source_field = p.1) :
    (d.map Prod.snd).map (fun m => m.source_field) = d.map Prod.fst := by
  rw [List.map_map]
  exact List.map_congr_left (fun p hp => h p hp)

theorem update_mappings_fold_inv (cache : List (String × List FieldMapping))
    (chs : List SchemaChange) (source target : Schema) :
    (((update_mappings cache chs source target).1.map
      (fun m => m.source_field)).Nodup) := by
  unfold update_mappings
  dsimp only
  have hQ := List.foldlRecOn
    (motive := fun d : List (String × FieldMapping) =>
      ((d.map Prod.fst).Nodup ∧ ∀ p ∈ d, p.2.source_field = p.1))
    chs
    (update_step source target
      (((alist_get (source.id ++ "_" ++ target.id) cache).getD []).map
        (fun m => m.target_field)))
    (dict_of_mappings ((alist_get (source.id ++ "_" ++ target.id) cache).getD []))
    (dict_of_mappings_inv _)
    (fun d hd ch _ => update_step_preserves_inv source target _ d ch hd)
  rw [values_sources_eq_keys _ hQ.2]
  exact hQ.1

/-- **C2 (amended).** A mapping list produced by `generate_mappings`
contains each source field name at most once, and (given the data-model
invariant that target field names are unique within a schema) each target
field name at most once; a list produced by `update_mappings` contains each
source field name at most once (it is the value list of a dict keyed by
source field).  Target-field uniqueness does *not* survive `update_mappings`
batches with several `added` changes (see the counterexample), because the
target-availability check consults only the pre-batch mapping list. -/
theorem c2_uniqueness_amended (source target : Schema)
    (cache : List (String × List FieldMapping)) (chs : List SchemaChange)
    (h : (target.fields.map (fun f => f.name)).Nodup) :
    ((generate_mappings source target).map (fun m => m.source_field)).Nodup ∧
      ((generate_mappings source target).map (fun m => m.target_field)).Nodup ∧
      ((update_mappings cache chs source target).1.map
        (fun m => m.source_field)).Nodup := by
  refine ⟨?_, ?_, update_mappings_fold_inv cache chs source target⟩
  · unfold generate_mappings
    exact (gen_fold_sources source.fields target.fields ([], []) ⟨by simp, by simp⟩).1
  · unfold generate_mappings
    exact gen_fold_targets source.fields target.fields ([], []) h (by simp) (by simp)

/-- Witness for C2 (amended) on the sample schemas (their target field
names are unique). -/
theorem c2_uniqueness_amended_witness :
    ((sample_target.fields.map (fun f => f.name)).Nodup) ∧
      ((generate_mappings sample_source sample_target).map
        (fun m => m.source_field)).Nodup ∧
      ((generate_mappings sample_source sample_target).map
        (fun m => m.target_field)).Nodup ∧
      ((update_mappings [] [] sample_source sample_target).1.map
        (fun m => m.source_field)).Nodup :=
  ⟨by decide,
    (c2_uniqueness_amended sample_source sample_target [] [] (by decide)).1,
    (c2_uniqueness_amended sample_source sample_target [] [] (by decide)).2.1,
    (c2_uniqueness_amended sample_source sample_target [] [] (by decide)).2.2⟩

theorem first_field_named_of_mem {fs : List Field} {tf : Field}
    (hnd : (fs.map (fun f => f.name)).Nodup) (h : tf ∈ fs) :
    first_field_named tf.name fs = some tf := by
  induction fs with
  | nil => cases h
  | cons f t ih =>
    rw [List.map_cons] at hnd
    rcases List.mem_cons.mp h with rfl | h
    · simp [first_field_named, List.find?_cons]
    · have hne : f.name ≠ tf.name := by
        intro he
        exact (List.nodup_cons.mp hnd).1 (he ▸ List.mem_map.mpr ⟨tf, h, rfl⟩)
      unfold first_field_named at ih ⊢
      rw [List.find?_cons]
      rw [decide_eq_false hne]
      exact ih (List.nodup_cons.mp hnd).2 h

theorem alist_get_mem {β : Type} {k : String} {v : β} :
    ∀ {d : List (String × β)}, alist_get k d = some v → (k, v) ∈ d
  | [], h => by cases h
  | p :: t, h => by
    unfold alist_get at h
    by_cases hk : p.1 = k
    · rw [if_pos hk] at h
      have hv : p.2 = v := Option.some.inj h
      have : p = (k, v) := by
        rw [← hk, ← hv]
      rw [← this]
      exact List.mem_cons_self _ _
    · rw [if_neg hk] at h
      exact List.mem_cons_of_mem _ (alist_get_mem h)

theorem update_step_preserves_origin (source target : Schema) (used : List String)
    (chs : List SchemaChange) (hnd : (target.fields.map (fun f => f.name)).Nodup)
    (d : List (String × FieldMapping)) (ch : SchemaChange) (hch : ch ∈ chs)
    (h : ∀ p ∈ d, ∃ uf tf,
      first_field_named p.1 source.fields = some uf ∧
      first_field_named p.2.target_field target.fields = some tf ∧
      p.2 = make_generated_mapping uf tf (candidate_confidence uf tf) ∧
      (1 / 2 : ℚ) < candidate_confidence uf tf ∧
      ∃ c ∈ chs, c.change_type = "added" ∧ c.field_name = p.1) :
    ∀ p ∈ update_step source target used d ch, ∃ uf tf,
      first_field_named p.1 source.fields = some uf ∧
      first_field_named p.2.target_field target.fields = some tf ∧
      p.2 = make_generated_mapping uf tf (candidate_confidence uf tf) ∧
      (1 / 2 : ℚ) < candidate_confidence uf tf ∧
      ∃ c ∈ chs, c.change_type = "added" ∧ c.field_name = p.1 := by
  unfold update_step
  split
  · next hadded =>
    cases hf : first_field_named ch.field_name source.fields with
    | none => exact h
    | some nf =>
      dsimp only
      cases hm : find_added_mapping nf used target.fields with
      | none => exact h
      | some m =>
        dsimp only
        intro p hp
        rcases alist_put_mem hp with rfl | hp
        · obtain ⟨hsrc, hconf, tf, htf, _, hmk⟩ := find_added_mapping_some hm
          have hconf' : (1 / 2 : ℚ) < candidate_confidence nf tf := by
            rw [hmk, make_generated_mapping_confidence] at hconf
            exact hconf
          refine ⟨nf, tf, ?_, ?_, hmk, hconf', ch, hch, hadded, ?_⟩
          · rw [first_field_named_name hf]
            exact hf
          · rw [hmk, make_generated_mapping_target_field]
            exact first_field_named_of_mem hnd htf
          · exact (first_field_named_name hf).symm
        · exact h p hp
  · split
    · intro p hp
      exact h p (alist_del_mem hp)
    · split
      · cases hg : alist_get ch.field_name d with
        | none => exact h
        | some old =>
          dsimp only
          obtain ⟨uf, tf, h1, h2, h3, h4, hprov⟩ := h _ (alist_get_mem hg)
          dsimp only at h1 h2 h3 hprov
          cases hu : first_field_named ch.field_name source.fields with
          | none => exact h
          | some uf' =>
            cases ht : first_field_named old.target_field target.fields with
            | none => exact h
            | some tf' =>
              dsimp only
              intro p hp
              rcases alist_put_mem hp with rfl | hp
              · have huf : uf' = uf := by
                  rw [h1] at hu
                  exact (Option.some.inj hu).symm
                have htf : tf' = tf := by
                  rw [h2] at ht
                  exact (Option.some.inj ht).symm
                subst huf htf
                refine ⟨uf', tf', h1, ?_, rfl, h4, hprov⟩
                rw [make_generated_mapping_target_field]
                have : old.target_field = tf'.name := by
                  rw [h3, make_generated_mapping_target_field]
                rw [← this]
                exact h2
              · exact h p hp
      · exact h

/-- **C9.** Calling `update_mappings` for a `(source.id, target.id)` pair
with no cached mapping set is total and operates on an empty mapping set:
`removed` and `type_changed` steps are no-ops on the empty dict, every
mapping in the result originates from an `added` change of the batch and
carries confidence above 0.5, and the result is written to the mapping
cache under the pair's key. -/
theorem c9_update_without_cached_set (cache : List (String × List FieldMapping))
    (chs : List SchemaChange) (source target : Schema)
    (hmiss : alist_get (source.id ++ "_" ++ target.id) cache = none)
    (hnd : (target.fields.map (fun f => f.name)).Nodup) :
    alist_get (source.id ++ "_" ++ target.id)
        (update_mappings cache chs source target).2 =
      some (update_mappings cache chs source target).1 ∧
      (∀ m ∈ (update_mappings cache chs source target).1,
        (1 / 2 : ℚ) < m.confidence ∧
          ∃ c ∈ chs, c.change_type = "added" ∧ c.field_name = m.source_field) ∧
      (∀ sid n ov nv,
        update_step source target [] [] ⟨sid, "removed", n, ov, nv⟩ = [] ∧
          update_step source target [] [] ⟨sid, "type_changed", n, ov, nv⟩ = []) := by
  refine ⟨?_, ?_, ?_⟩
  · unfold update_mappings
    dsimp only
    exact alist_get_put_self _ _ _
  · unfold update_mappings
    dsimp only
    rw [hmiss]
    simp only [Option.getD_none, List.map_nil]
    intro m hm
    have hR : ∀ p ∈ List.foldl (update_step source target [])
        (dict_of_mappings []) chs, ∃ uf tf,
          first_field_named p.1 source.fields = some uf ∧
          first_field_named p.2.target_field target.fields = some tf ∧
          p.2 = make_generated_mapping uf tf (candidate_confidence uf tf) ∧
          (1 / 2 : ℚ) < candidate_confidence uf tf ∧
          ∃ c ∈ chs, c.change_type = "added" ∧ c.field_name = p.1 := by
      refine List.foldlRecOn
        (motive := fun d : List (String × FieldMapping) => ∀ p ∈ d, ∃ uf tf,
          first_field_named p.1 source.fields = some uf ∧
          first_field_named p.2.target_field target.fields = some tf ∧
          p.2 = make_generated_mapping uf tf (candidate_confidence uf tf) ∧
          (1 / 2 : ℚ) < candidate_confidence uf tf ∧
          ∃ c ∈ chs, c.change_type = "added" ∧ c.field_name = p.1)
        chs _ _ ?_ ?_
      · intro p hp
        simp [dict_of_mappings] at hp
      · intro d hd ch hch
        exact update_step_preserves_origin source target [] chs hnd d ch hch hd
    rcases List.mem_map.mp hm with ⟨p, hp, rfl⟩
    obtain ⟨uf, tf, h1, h2, h3, h4, c, hc, hct, hcf⟩ := hR p hp
    constructor
    · rw [h3, make_generated_mapping_confidence]
      exact h4
    · refine ⟨c, hc, hct, ?_⟩
      rw [h3, make_generated_mapping_source_field, first_field_named_name h1]
      exact hcf
  · intro sid n ov nv
    constructor
    · unfold update_step
      simp [alist_del]
    · unfold update_step
      simp [alist_get]

/-- Witness for C9: a one-`added`-change batch against an empty mapping
cache lands in the cache under the pair key. -/
theorem c9_update_without_cached_set_witness :
    alist_get (sample_source.id ++ "_" ++ sample_target.id)
        ([] : List (String × List FieldMapping)) = none ∧
      (sample_target.fields.map (fun f => f.name)).Nodup ∧
      alist_get (sample_source.id ++ "_" ++ sample_target.id)
          (update_mappings [] [⟨"s", "added", "a", none, none⟩] sample_source
            sample_target).2 =
        some (update_mappings [] [⟨"s", "added", "a", none, none⟩] sample_source
          sample_target).1 :=
  ⟨by decide, by decide,
    (c9_update_without_cached_set [] [⟨"s", "added", "a", none, none⟩] sample_source
      sample_target (by decide) (by decide)).1⟩

end Etl
